import Mathlib

/-!
# Verification of the 67dle backend (`src/backend/main.py`)

A shallow embedding of the FastAPI backend of the daily word-guessing game:
the word catalog, the deterministic daily-word selector (a Mersenne-Twister
draw seeded with the day ordinal, as `random.Random(ordinal).choice(words)`
does in CPython), the two-pass guess scorer, the `/guess` endpoint's
validation, and the leaderboard endpoints.  Machine integers are modelled as
`Nat` with explicit `% 2^32` where the generator wraps; the per-letter count
table of the scorer is a total function `Char → Int` defaulting to `0`,
matching the Python `dict.get(c, 0)` idiom (Python integers are signed, so
counts live in `Int`).
-/

set_option maxHeartbeats 1600000

/-! ## The Mersenne Twister, as CPython's `random.Random(seed)` runs it

`get_daily_word` in `main.py` builds `random.Random(today.toordinal())` and
draws one element with `.choice(WORDS_LIST)`.  CPython seeds MT19937 through
`init_by_array` on the 32-bit limbs of the seed, and `choice` draws an index
with `_randbelow` (rejection sampling over `getrandbits`).  Everything below
is that algorithm on `Nat`, wrapping at `2^32`. -/

def mask32 : Nat := 4294967296

/-- `init_genrand(s)`: the 624-word state seeded from one 32-bit value. -/
def initGenrand (s : Nat) : Array Nat :=
  (List.range 623).foldl
    (fun a i =>
      let prev := a.getD i 0
      a.push ((1812433253 * (prev ^^^ (prev >>> 30)) + (i + 1)) % mask32))
    #[s % mask32]

/-- First mixing loop of `init_by_array`: `k` steps with state index `i` and
key index `j`, both wrapping as in the C reference code. -/
def ibaMix1 (key : List Nat) : Nat → Nat → Nat → Array Nat → Nat × Array Nat
  | 0, i, _, a => (i, a)
  | k + 1, i, j, a =>
    let prev := a.getD (i - 1) 0
    let v := ((a.getD i 0 ^^^ ((prev ^^^ (prev >>> 30)) * 1664525)) + key.getD j 0 + j) % mask32
    let a := a.setD i v
    let i := i + 1
    let (i, a) := if i ≥ 624 then (1, a.setD 0 (a.getD 623 0)) else (i, a)
    ibaMix1 key k i ((j + 1) % key.length) a

/-- Second mixing loop of `init_by_array`: `k` steps from state index `i`. -/
def ibaMix2 : Nat → Nat → Array Nat → Array Nat
  | 0, _, a => a
  | k + 1, i, a =>
    let prev := a.getD (i - 1) 0
    let v := ((a.getD i 0 ^^^ ((prev ^^^ (prev >>> 30)) * 1566083941)) + (mask32 - i % mask32)) % mask32
    let a := a.setD i v
    let i := i + 1
    let (i, a) := if i ≥ 624 then (1, a.setD 0 (a.getD 623 0)) else (i, a)
    ibaMix2 k i a

/-- `init_by_array(key)` of the MT19937 reference implementation. -/
def initByArray (key : List Nat) : Array Nat :=
  let a := initGenrand 19650218
  let (i, a) := ibaMix1 key (max 624 key.length) 1 0 a
  let a := ibaMix2 623 i a
  a.setD 0 2147483648

/-- The 32-bit little-endian limbs of a seed, as CPython's `random_seed`
feeds an `int` argument to `init_by_array`. -/
def seedKey (n : Nat) : List Nat :=
  if h : n = 0 then [0] else n % mask32 :: seedKeyAux (n / mask32)
where
  seedKeyAux (m : Nat) : List Nat :=
    if h : m = 0 then [] else m % mask32 :: seedKeyAux (m / mask32)
  decreasing_by exact Nat.div_lt_self (Nat.pos_of_ne_zero h) (by decide)

/-- The generator state: the 624-word array and the output index `mti`. -/
structure MTState where
  mt : Array Nat
  mti : Nat
deriving DecidableEq

/-- `random.Random(seed)` for an `int` seed: `init_by_array` on the seed's
limbs, final word forced to `0x80000000`, index at 624 so that the first
draw regenerates. -/
def mtInit (seed : Nat) : MTState :=
  ⟨initByArray (seedKey seed), 624⟩

/-- One regeneration sweep of the 624-word state.  The reference code runs
it in three stripes; sequentially updating index `kk` while reading
`(kk+1) % 624` and `(kk+397) % 624` from the partially updated array is the
same computation. -/
def mtTwist (a : Array Nat) : Array Nat :=
  (List.range 624).foldl
    (fun a kk =>
      let y := (a.getD kk 0 &&& 2147483648) ||| (a.getD ((kk + 1) % 624) 0 &&& 2147483647)
      a.setD kk (a.getD ((kk + 397) % 624) 0 ^^^ (y >>> 1) ^^^ (if y % 2 = 1 then 2567483615 else 0)))
    a

/-- The tempering transform applied to each raw output word. -/
def mtTemper (y : Nat) : Nat :=
  let y := y ^^^ (y >>> 11)
  let y := y ^^^ ((y <<< 7) &&& 2636928640)
  let y := y ^^^ ((y <<< 15) &&& 4022730752)
  y ^^^ (y >>> 18)

/-- `genrand_uint32`: one 32-bit word of output and the next state. -/
def genrandUint32 (s : MTState) : Nat × MTState :=
  let (a, mti) := if s.mti ≥ 624 then (mtTwist s.mt, 0) else (s.mt, s.mti)
  (mtTemper (a.getD mti 0), ⟨a, mti + 1⟩)

/-- Accumulates `words` 32-bit draws into one integer, little-endian, the
last draw truncated to the remaining bits: CPython's `getrandbits` for an
arbitrary bit count. -/
def getrandbitsAux : Nat → Nat → Nat → Nat → MTState → Nat × MTState
  | 0, _, _, acc, s => (acc, s)
  | w + 1, krem, shift, acc, s =>
    let (r, s) := genrandUint32 s
    let r := if krem < 32 then r >>> (32 - krem) else r
    getrandbitsAux w (krem - 32) (shift + 32) (acc + (r <<< shift)) s

/-- `getrandbits(k)`. -/
def getrandbits (k : Nat) (s : MTState) : Nat × MTState :=
  getrandbitsAux ((k + 31) / 32) k 0 0 s

/-- `int.bit_length()`. -/
def pyBitLength (n : Nat) : Nat :=
  if n = 0 then 0 else Nat.log2 n + 1

/-- `Random._randbelow(n)`: draw `bit_length n` bits, retry while the draw
is `≥ n`.  The retry loop terminates with probability 1; the embedding
bounds it by fuel and falls back to `0` (still a valid index for `n > 0`)
when the fuel runs out. -/
def randbelowAux : Nat → Nat → MTState → Nat × MTState
  | 0, _, s => (0, s)
  | fuel + 1, n, s =>
    let (r, s) := getrandbits (pyBitLength n) s
    if r < n then (r, s) else randbelowAux fuel n s

def randbelow (n : Nat) (s : MTState) : Nat × MTState :=
  randbelowAux 64 n s

/-- `Random.choice(seq)`: `seq[self._randbelow(len(seq))]`. -/
def rngChoice (s : MTState) (l : List String) : String :=
  l.getD (randbelow l.length s).1 ""

/-! ## The word catalog (`main.py` lines 37–45)

`WORDS_LIST = [w.upper() for w in json.load(f)]`, falling back to a fixed
five-word list when `words.json` is absent; `WORDS_SET = set(WORDS_LIST)` is
only used for membership, which coincides with membership in the list. -/

/-- Python's `str.upper()` on the character sequence of a string (the words
of this service are ASCII, where upper-casing is per-character). -/
def pyUpper (s : String) : String := ⟨s.data.map Char.toUpper⟩

/-- The hardcoded fallback list of `main.py` line 43. -/
def fallbackWords : List String := ["SAMPLE", "SIMPLE", "SERVER", "BUTTER", "BETTER"]

/-- `[w.upper() for w in source]`: the catalog built from a loaded word
list.  No deduplication and no length filtering happens here. -/
def buildCatalog (source : List String) : List String := source.map pyUpper

/-- `WORDS_LIST`: the catalog from the loaded file when present, else the
fallback list (the `try/except FileNotFoundError` of lines 39–43). -/
def loadWords : Option (List String) → List String
  | some source => buildCatalog source
  | none => fallbackWords

/-! ## The daily selector (`get_daily_word`, lines 62–70) -/

/-- `get_daily_word`: seed a local `random.Random` with the EST date's
ordinal, return the sentinel `"NOWORD"` on an empty catalog, otherwise one
drawn word. -/
def get_daily_word (todayOrdinal : Nat) (WORDS_LIST : List String) : String :=
  let rng := mtInit todayOrdinal
  if WORDS_LIST = [] then "NOWORD"
  else rngChoice rng WORDS_LIST

/-- `get_daily_word` as it executes inside a process that also owns the
`random` module's global generator state: the code seeds a fresh local
`random.Random` instance (line 66, "so it doesn't affect global random
state"), so the global state is neither read nor written.  The pair is
(returned word, global state after the call). -/
def get_daily_word_proc (todayOrdinal : Nat) (WORDS_LIST : List String)
    (globalRandomState : MTState) : String × MTState :=
  (get_daily_word todayOrdinal WORDS_LIST, globalRandomState)

/-! ## The guess scorer (`check_guess`, lines 112–137) -/

/-- `target_letters_count`: the dict built by the frequency loop of lines
117–119, as a total function defaulting to `0`. -/
def buildCounts (target : List Char) : Char → Int :=
  target.foldl (fun m c => Function.update m c (m c + 1)) (fun _ => 0)

/-- One iteration of the first pass (lines 122–125): on `guess[i] ==
target[i]` mark position `i` `"correct"` and decrement that letter's
count. -/
def pass1Step (guess target : List Char) (st : List String × (Char → Int)) (i : Nat) :
    List String × (Char → Int) :=
  if guess.getD i ' ' = target.getD i ' ' then
    (st.1.set i "correct",
     Function.update st.2 (guess.getD i ' ') (st.2 (guess.getD i ' ') - 1))
  else st

/-- One iteration of the second pass (lines 128–135): skip positions already
`"correct"`, mark `"present"` and decrement while the letter's remaining
count is positive, else leave the initialized `"absent"`. -/
def pass2Step (guess : List Char) (st : List String × (Char → Int)) (i : Nat) :
    List String × (Char → Int) :=
  if st.1.getD i "" = "correct" then st
  else
    let letter := guess.getD i ' '
    if st.2 letter > 0 then
      (st.1.set i "present", Function.update st.2 letter (st.2 letter - 1))
    else st

/-- The scoring block of `check_guess`: `result = ["absent"] * 6`, the
frequency count, pass 1 over `range(6)`, then pass 2 over `range(6)`. -/
def scoreGuess (guessS targetS : String) : List String :=
  let guess := guessS.data
  let target := targetS.data
  let init := (List.replicate 6 "absent", buildCounts target)
  let st1 := (List.range 6).foldl (pass1Step guess target) init
  let st2 := (List.range 6).foldl (pass2Step guess) st1
  st2.1

/-! ## The `/guess` endpoint (`check_guess`, lines 98–137) -/

/-- The two shapes a `POST /guess` call can produce: a raised
`HTTPException`, or a JSON body with the verdict list, the validity flag
and (when present) the `"solution"` field. -/
inductive GuessOutcome where
  | httpError (status : Nat) (detail : String)
  | response (result : List String) (is_valid_word : Bool) (solution : Option String)
deriving DecidableEq

/-- `check_guess(request)`: upper-case the guess, reject any length other
than 6 with HTTP 400, answer `{result: [], is_valid_word: false}` for a
word outside the catalog, otherwise score against `get_daily_word()` and
also return the solution.  The request's influence on the store and clock
is captured by the catalog and the day ordinal. -/
def check_guess (reqGuess : String) (WORDS_LIST : List String) (todayOrdinal : Nat) :
    GuessOutcome :=
  let guess := pyUpper reqGuess
  if guess.length ≠ 6 then .httpError 400 "Word must be 6 letters"
  else if guess ∉ WORDS_LIST then .response [] false none
  else
    let target := get_daily_word todayOrdinal WORDS_LIST
    .response (scoreGuess guess target) true (some target)

/-! ## The leaderboard endpoints (lines 139–181) -/

/-- One row of the `leaderboard` table for a day, as the endpoints handle
it. -/
structure LBEntry where
  name : String
  tries : Int
  won : Bool
deriving DecidableEq

/-- The sort key comparison of lines 152 and 178:
`key=lambda x: (not x["won"], x["tries"])` in ascending lexicographic
order, so winners (`not won = False`) come first, ties broken by `tries`
ascending. -/
def entryLe (a b : LBEntry) : Bool :=
  if a.won = b.won then a.tries ≤ b.tries else a.won

/-- `sorted(entries, key=lambda x: (not x["won"], x["tries"]))`. -/
def sortLeaderboard (entries : List LBEntry) : List LBEntry :=
  entries.mergeSort entryLe

/-- What a day's leaderboard store can look like from the endpoints' point
of view: `none` models an unconfigured Supabase client (`get_supabase()`
returned `None`), `some (.error e)` a store whose query raises `e`, and
`some (.ok rows)` a reachable store holding `rows` for the day. -/
def LBStore := Option (Except String (List LBEntry))

/-- The JSON body both leaderboard endpoints return on their non-raising
paths. -/
structure LBResult where
  entries : List LBEntry
  date : String
  error : Option String
deriving DecidableEq

/-- `GET /leaderboard`: soft error body when unconfigured, soft error body
when the query raises, else the day's rows sorted. -/
def get_leaderboard (todayKey : String) (store : LBStore) : LBResult :=
  match store with
  | none => ⟨[], todayKey, some "Database not configured"⟩
  | some (.error e) => ⟨[], todayKey, some e⟩
  | some (.ok rows) => ⟨sortLeaderboard rows, todayKey, none⟩

/-- `POST /leaderboard`: soft error body when unconfigured; a raised
`HTTPException(500, str(e))` when the store raises; otherwise the entry is
appended (name stripped) and the refreshed day's rows are returned
sorted. -/
def add_to_leaderboard (todayKey : String) (entry : LBEntry) (store : LBStore) :
    Except (Nat × String) LBResult :=
  match store with
  | none => .ok ⟨[], todayKey, some "Database not configured"⟩
  | some (.error e) => .error (500, e)
  | some (.ok rows) =>
    let rows := rows ++ [⟨entry.name.trim, entry.tries, entry.won⟩]
    .ok ⟨sortLeaderboard rows, todayKey, none⟩

/-! ## The reference two-pass algorithm, as the specification words it

The spec describes the scorer as: build a per-letter remaining-count table
from the target; pass 1 marks every position with `guess[i] == target[i]`
as `correct`, decrementing that letter's count, and completes over all six
positions; pass 2 then walks the positions not marked `correct`, marking
`present` and decrementing while the remaining count is positive and
`absent` otherwise.  The two passes below follow that text directly, as
structural recursions over the letter sequences; `refTwoPass` is compared
against the code's `scoreGuess`. -/

/-- Pass 1 of the reference algorithm: a `some "correct"` mark where the
letters agree (with the count decremented), `none` where the position is
left for pass 2. -/
def refPass1 : List Char → List Char → (Char → Int) → List (Option String) × (Char → Int)
  | g :: gs, t :: ts, m =>
    if g = t then
      let r := refPass1 gs ts (Function.update m g (m g - 1))
      (some "correct" :: r.1, r.2)
    else
      let r := refPass1 gs ts m
      (none :: r.1, r.2)
  | _, _, m => ([], m)

/-- Pass 2 of the reference algorithm: marks already placed by pass 1 are
kept, the rest become `present` (decrementing) while the guessed letter's
remaining count is positive, `absent` otherwise. -/
def refPass2 : List Char → List (Option String) → (Char → Int) → List String
  | g :: gs, v :: vs, m =>
    match v with
    | some s => s :: refPass2 gs vs m
    | none =>
      if m g > 0 then "present" :: refPass2 gs vs (Function.update m g (m g - 1))
      else "absent" :: refPass2 gs vs m
  | _, _, _ => []

/-- The whole reference algorithm of the spec. -/
def refTwoPass (guessS targetS : String) : List String :=
  let p := refPass1 guessS.data targetS.data (buildCounts targetS.data)
  refPass2 guessS.data p.1 p.2

/-! ## Auxiliary definitions for the proofs

Structural-recursion forms of the two indexed passes (used to bridge
the `range` folds to the reference algorithm), counting functions for
the duplicate-letter bound, and the leaderboard ordering relation. -/

/-- The first pass as a structural recursion over the (guess, target,
result) suffixes: what the indexed fold computes position by position. -/
def pass1rec : List Char → List Char → List String → (Char → Int) →
    List String × (Char → Int)
  | g :: gs, t :: ts, s :: ss, m =>
    if g = t then
      let r := pass1rec gs ts ss (Function.update m g (m g - 1))
      ("correct" :: r.1, r.2)
    else
      let r := pass1rec gs ts ss m
      (s :: r.1, r.2)
  | _, _, ss, m => (ss, m)

/-- The second pass as a structural recursion over the (guess, result)
suffixes. -/
def pass2rec : List Char → List String → (Char → Int) →
    List String × (Char → Int)
  | g :: gs, s :: ss, m =>
    if s = "correct" then
      let r := pass2rec gs ss m
      (s :: r.1, r.2)
    else if m g > 0 then
      let r := pass2rec gs ss (Function.update m g (m g - 1))
      ("present" :: r.1, r.2)
    else
      let r := pass2rec gs ss m
      (s :: r.1, r.2)
  | _, ss, m => (ss, m)

/-- How many positions guess the letter `c` and receive a crediting verdict
(`"correct"` or `"present"`). -/
def creditedCount (c : Char) (guess : List Char) (verdicts : List String) : Nat :=
  List.countP (fun p => p.1 == c && (p.2 == "correct" || p.2 == "present"))
    (guess.zip verdicts)

/-- How many positions guess the letter `c` and match the target exactly. -/
def correctMatches (c : Char) (guess target : List Char) : Nat :=
  List.countP (fun p => p.1 == c && p.1 == p.2) (guess.zip target)

/-- How many positions guess the letter `c` and carry a `"correct"` mark
from pass 1. -/
def correctMarks (c : Char) (guess : List Char) (marks : List (Option String)) : Nat :=
  List.countP (fun p => p.1 == c && p.2 == some "correct") (guess.zip marks)

/-- The ordering the spec states for leaderboard responses: winners before
non-winners, ties broken by tries ascending. -/
def entryOrder (a b : LBEntry) : Prop :=
  (a.won = true ∧ b.won = false) ∨ (a.won = b.won ∧ a.tries ≤ b.tries)

/-! ### Sanity examples for the scorer (the worked examples of the spec) -/

example : scoreGuess "BUTTED" "BUTTER" =
    ["correct", "correct", "correct", "correct", "correct", "absent"] := by decide

example : scoreGuess "MIXUPS" "SIMPLE" =
    ["present", "correct", "absent", "absent", "present", "present"] := by decide

example : scoreGuess "EERIER" "BETTER" =
    ["absent", "correct", "absent", "absent", "correct", "correct"] := by decide

example : scoreGuess "TTTTTT" "BETTER" =
    ["absent", "absent", "correct", "correct", "absent", "absent"] := by decide

example : refTwoPass "EERIER" "BETTER" =
    ["absent", "correct", "absent", "absent", "correct", "correct"] := by decide


/-! ## Equivalence of the code's scorer with the reference algorithm

`scoreGuess` runs two `foldl`s over `List.range 6`, reading and writing the
result list by index; the reference algorithm is a structural recursion
over the letter lists.  The bridge is an index-offset induction: once the
first `k` positions are frozen into a prefix, the fold over the remaining
indices only touches the suffix, where a structural recursion lives. -/

lemma pass1rec_nil (gs ts : List Char) (m : Char → Int) :
    pass1rec gs ts [] m = ([], m) := by
  cases gs <;> cases ts <;> rfl

lemma pass2rec_nil (gs : List Char) (m : Char → Int) :
    pass2rec gs [] m = ([], m) := by
  cases gs <;> rfl

/-- The pass-1 fold, started at index `pre.length` with the prefix `pre`
already in place, freezes the prefix and runs `pass1rec` on the suffix. -/
lemma foldl_pass1 (g t : List Char) :
    ∀ (suf pre : List String) (m : Char → Int),
      pre.length + suf.length ≤ g.length → pre.length + suf.length ≤ t.length →
      (List.range' pre.length suf.length).foldl (pass1Step g t) (pre ++ suf, m)
        = (pre ++ (pass1rec (g.drop pre.length) (t.drop pre.length) suf m).1,
           (pass1rec (g.drop pre.length) (t.drop pre.length) suf m).2) := by
  intro suf
  induction suf with
  | nil =>
    intro pre m _ _
    simp [pass1rec_nil]
  | cons s ss ih =>
    intro pre m hg ht
    have hkg : pre.length < g.length := by simp at hg; omega
    have hkt : pre.length < t.length := by simp at ht; omega
    simp only [List.length_cons]
    rw [List.range'_succ, List.foldl_cons]
    have hstep : pass1Step g t (pre ++ s :: ss, m) pre.length
        = if g[pre.length] = t[pre.length] then
            (pre ++ "correct" :: ss,
             Function.update m g[pre.length] (m g[pre.length] - 1))
          else (pre ++ s :: ss, m) := by
      unfold pass1Step
      rw [List.getD_eq_getElem g ' ' hkg, List.getD_eq_getElem t ' ' hkt]
      split_ifs with h
      · rw [List.set_append]
        simp
      · rfl
    rw [hstep]
    rw [List.drop_eq_getElem_cons hkg, List.drop_eq_getElem_cons hkt]
    by_cases h : g[pre.length] = t[pre.length]
    · rw [if_pos h]
      have h6 := ih (pre ++ ["correct"])
        (Function.update m g[pre.length] (m g[pre.length] - 1))
        (by simp; simp at hg; omega) (by simp; simp at ht; omega)
      simp only [List.append_assoc, List.singleton_append, List.length_append,
        List.length_singleton] at h6
      rw [h6]
      simp only [pass1rec, if_pos h]
    · rw [if_neg h]
      have h6 := ih (pre ++ [s]) m
        (by simp; simp at hg; omega) (by simp; simp at ht; omega)
      simp only [List.append_assoc, List.singleton_append, List.length_append,
        List.length_singleton] at h6
      rw [h6]
      simp only [pass1rec, if_neg h]

/-- The pass-2 fold, started at index `pre.length` with the prefix `pre`
already in place, freezes the prefix and runs `pass2rec` on the suffix. -/
lemma foldl_pass2 (g : List Char) :
    ∀ (suf pre : List String) (m : Char → Int),
      pre.length + suf.length ≤ g.length →
      (List.range' pre.length suf.length).foldl (pass2Step g) (pre ++ suf, m)
        = (pre ++ (pass2rec (g.drop pre.length) suf m).1,
           (pass2rec (g.drop pre.length) suf m).2) := by
  intro suf
  induction suf with
  | nil =>
    intro pre m _
    simp [pass2rec_nil]
  | cons s ss ih =>
    intro pre m hg
    have hkg : pre.length < g.length := by simp at hg; omega
    simp only [List.length_cons]
    rw [List.range'_succ, List.foldl_cons]
    have hgetD : (pre ++ s :: ss).getD pre.length "" = s := by
      rw [List.getD_append_right _ _ _ _ (le_refl _)]
      simp
    have hstep : pass2Step g (pre ++ s :: ss, m) pre.length
        = if s = "correct" then (pre ++ s :: ss, m)
          else if m g[pre.length] > 0 then
            (pre ++ "present" :: ss,
             Function.update m g[pre.length] (m g[pre.length] - 1))
          else (pre ++ s :: ss, m) := by
      unfold pass2Step
      rw [hgetD, List.getD_eq_getElem g ' ' hkg]
      by_cases h1 : s = "correct"
      · simp only [if_pos h1]
      · simp only [if_neg h1]
        by_cases h2 : m g[pre.length] > 0
        · simp only [if_pos h2, List.set_append]
          simp
        · simp only [if_neg h2]
    rw [hstep]
    rw [List.drop_eq_getElem_cons hkg]
    by_cases h1 : s = "correct"
    · rw [if_pos h1]
      have h6 := ih (pre ++ [s]) m (by simp; simp at hg; omega)
      simp only [List.append_assoc, List.singleton_append, List.length_append,
        List.length_singleton] at h6
      rw [h6]
      simp only [pass2rec, if_pos h1]
    · rw [if_neg h1]
      by_cases h2 : m g[pre.length] > 0
      · rw [if_pos h2]
        have h6 := ih (pre ++ ["present"])
          (Function.update m g[pre.length] (m g[pre.length] - 1))
          (by simp; simp at hg; omega)
        simp only [List.append_assoc, List.singleton_append, List.length_append,
          List.length_singleton] at h6
        rw [h6]
        simp only [pass2rec, if_neg h1, if_pos h2]
      · rw [if_neg h2]
        have h6 := ih (pre ++ [s]) m (by simp; simp at hg; omega)
        simp only [List.append_assoc, List.singleton_append, List.length_append,
          List.length_singleton] at h6
        rw [h6]
        simp only [pass2rec, if_neg h1, if_neg h2]

/-- On an all-`"absent"` result list of matching length, `pass1rec` computes
the reference pass 1, with `none` marks rendered as `"absent"`. -/
lemma pass1rec_eq_refPass1 :
    ∀ (gs ts : List Char) (ss : List String) (m : Char → Int),
      ts.length = gs.length → ss.length = gs.length → (∀ s ∈ ss, s = "absent") →
      pass1rec gs ts ss m
        = ((refPass1 gs ts m).1.map (fun v => v.getD "absent"), (refPass1 gs ts m).2) := by
  intro gs
  induction gs with
  | nil =>
    intro ts ss m hts hss _
    simp only [List.length_nil] at hts hss
    rw [List.length_eq_zero] at hts hss
    subst hts hss
    rfl
  | cons g gs ih =>
    intro ts ss m hts hss habs
    rcases ts with _ | ⟨t, ts⟩
    · simp at hts
    rcases ss with _ | ⟨s, ss⟩
    · simp at hss
    have hs : s = "absent" := habs s (by simp)
    have habs' : ∀ x ∈ ss, x = "absent" := fun x hx => habs x (by simp [hx])
    simp only [List.length_cons] at hts hss
    by_cases h : g = t
    · simp only [pass1rec, refPass1, if_pos h,
        ih ts ss _ (by omega) (by omega) habs', List.map_cons, Option.getD_some]
    · simp only [pass1rec, refPass1, if_neg h,
        ih ts ss _ (by omega) (by omega) habs', List.map_cons, Option.getD_none, hs]

/-- The marks of the reference pass 1, position by position. -/
lemma refPass1_fst :
    ∀ (gs ts : List Char) (m : Char → Int),
      (refPass1 gs ts m).1
        = (gs.zip ts).map (fun p => if p.1 = p.2 then some "correct" else none) := by
  intro gs
  induction gs with
  | nil => intro ts m; cases ts <;> rfl
  | cons g gs ih =>
    intro ts m
    rcases ts with _ | ⟨t, ts⟩
    · rfl
    by_cases h : g = t
    · simp only [refPass1, if_pos h, ih, List.zip_cons_cons, List.map_cons]
    · simp only [refPass1, if_neg h, ih, List.zip_cons_cons, List.map_cons]

lemma refPass1_marks (gs ts : List Char) (m : Char → Int) :
    ∀ v ∈ (refPass1 gs ts m).1, v = some "correct" ∨ v = none := by
  intro v hv
  rw [refPass1_fst] at hv
  obtain ⟨p, _, hp⟩ := List.mem_map.mp hv
  by_cases h : p.1 = p.2
  · left; rw [← hp, if_pos h]
  · right; rw [← hp, if_neg h]

/-- On a result list whose marks come from pass 1 (`some "correct"` shown
as `"correct"`, `none` as `"absent"`), `pass2rec` computes the reference
pass 2. -/
lemma pass2rec_eq_refPass2 :
    ∀ (gs : List Char) (vs : List (Option String)) (m : Char → Int),
      vs.length = gs.length → (∀ v ∈ vs, v = some "correct" ∨ v = none) →
      (pass2rec gs (vs.map (fun v => v.getD "absent")) m).1 = refPass2 gs vs m := by
  intro gs
  induction gs with
  | nil =>
    intro vs m hvs _
    simp only [List.length_nil] at hvs
    rw [List.length_eq_zero] at hvs
    subst hvs
    rfl
  | cons g gs ih =>
    intro vs m hvs hmk
    rcases vs with _ | ⟨v, vs⟩
    · simp at hvs
    simp only [List.length_cons] at hvs
    have hmk' : ∀ x ∈ vs, x = some "correct" ∨ x = none := fun x hx => hmk x (by simp [hx])
    rcases hmk v (by simp) with hv | hv <;> subst hv
    · simp only [List.map_cons, Option.getD_some, pass2rec, refPass2, if_pos rfl, if_true, ite_true,
        ih vs m (by omega) hmk']
    · have hne : ¬ ("absent" = "correct") := by decide
      by_cases h2 : m g > 0
      · simp only [List.map_cons, Option.getD_none, pass2rec, refPass2, if_neg hne,
          if_pos h2, ih vs _ (by omega) hmk']
      · simp only [List.map_cons, Option.getD_none, pass2rec, refPass2, if_neg hne,
          if_neg h2, ih vs m (by omega) hmk']

lemma refPass1_length (gs ts : List Char) (m : Char → Int) :
    (refPass1 gs ts m).1.length = min gs.length ts.length := by
  rw [refPass1_fst, List.length_map, List.length_zip]

/-- On six-letter words, the code's indexed two-loop scorer computes
exactly the reference two-pass algorithm of the spec. -/
lemma scoreGuess_eq_refTwoPass (g t : String) (hg : g.length = 6) (ht : t.length = 6) :
    scoreGuess g t = refTwoPass g t := by
  have hg' : g.data.length = 6 := hg
  have ht' : t.data.length = 6 := ht
  unfold scoreGuess refTwoPass
  simp only [List.range_eq_range']
  have h6 := foldl_pass1 g.data t.data (List.replicate 6 "absent") [] (buildCounts t.data)
    (by simp [hg']) (by simp [ht'])
  simp only [List.length_nil, List.length_replicate, List.nil_append, List.drop_zero] at h6
  rw [h6]
  have hP1 := pass1rec_eq_refPass1 g.data t.data (List.replicate 6 "absent")
    (buildCounts t.data) (by omega) (by simp [hg'])
    (fun s hs => List.eq_of_mem_replicate hs)
  rw [hP1]
  have hlen : ((refPass1 g.data t.data (buildCounts t.data)).1.map
      (fun v => v.getD "absent")).length = 6 := by
    rw [List.length_map, refPass1_length, hg', ht', min_self]
  have h7 := foldl_pass2 g.data
    ((refPass1 g.data t.data (buildCounts t.data)).1.map (fun v => v.getD "absent"))
    [] (refPass1 g.data t.data (buildCounts t.data)).2
    (by simp [hlen, hg'])
  simp only [List.length_nil, List.nil_append, List.drop_zero, hlen] at h7
  rw [h7]
  simp only [List.nil_append]
  exact pass2rec_eq_refPass2 g.data (refPass1 g.data t.data (buildCounts t.data)).1 _
    (by rw [refPass1_length, hg', ht', min_self])
    (refPass1_marks g.data t.data (buildCounts t.data))

lemma foldl_pass1_length (g t : List Char) :
    ∀ (is : List Nat) (st : List String × (Char → Int)),
      ((is.foldl (pass1Step g t) st).1).length = st.1.length := by
  intro is
  induction is with
  | nil => intro st; rfl
  | cons i is ih =>
    intro st
    rw [List.foldl_cons, ih]
    unfold pass1Step
    split_ifs <;> simp

lemma foldl_pass2_length (g : List Char) :
    ∀ (is : List Nat) (st : List String × (Char → Int)),
      ((is.foldl (pass2Step g) st).1).length = st.1.length := by
  intro is
  induction is with
  | nil => intro st; rfl
  | cons i is ih =>
    intro st
    rw [List.foldl_cons, ih]
    simp only [pass2Step]
    split_ifs <;> simp

/-- The scorer always emits exactly 6 verdicts: the passes only overwrite
entries of the 6-slot `"absent"` array in place. -/
lemma scoreGuess_length (g t : String) : (scoreGuess g t).length = 6 := by
  unfold scoreGuess
  rw [foldl_pass2_length, foldl_pass1_length]
  simp

/-! ## No letter is credited more often than it occurs in the target -/

/-- The frequency fold computes occurrence counts. -/
lemma foldl_counts_apply :
    ∀ (l : List Char) (m : Char → Int) (c : Char),
      (l.foldl (fun m ch => Function.update m ch (m ch + 1)) m) c = m c + l.count c := by
  intro l
  induction l with
  | nil => intro m c; simp
  | cons a l ih =>
    intro m c
    rw [List.foldl_cons, ih, Function.update_apply, List.count_cons]
    by_cases h : c = a
    · simp [h]
      ring
    · have : (a == c) = false := by simp [beq_iff_eq]; exact fun e => h e.symm
      simp [h, this]

lemma buildCounts_apply (l : List Char) (c : Char) : buildCounts l c = l.count c := by
  unfold buildCounts
  rw [foldl_counts_apply]
  simp

/-- Pass 1 leaves, for every letter, its occurrence count minus the number
of exact matches it was charged for. -/
lemma refPass1_snd :
    ∀ (gs ts : List Char) (m : Char → Int) (c : Char),
      (refPass1 gs ts m).2 c = m c - correctMatches c gs ts := by
  intro gs
  induction gs with
  | nil => intro ts m c; cases ts <;> simp [refPass1, correctMatches]
  | cons g gs ih =>
    intro ts m c
    rcases ts with _ | ⟨t, ts⟩
    · simp [refPass1, correctMatches]
    have hcc : correctMatches c (g :: gs) (t :: ts)
        = correctMatches c gs ts + if (g == c && g == t) = true then 1 else 0 := by
      unfold correctMatches
      rw [List.zip_cons_cons, List.countP_cons]
    by_cases h : g = t
    · have e : (refPass1 (g :: gs) (t :: ts) m).2
          = (refPass1 gs ts (Function.update m g (m g - 1))).2 := by
        simp [refPass1, h]
      rw [e, ih ts _ c, hcc]
      by_cases hc : c = g
      · subst hc
        rw [Function.update_same]
        have hb : (c == c && c == t) = true := by simp [beq_iff_eq, h]
        rw [hb]
        simp
        ring
      · rw [Function.update_noteq hc]
        have hb : (g == c && g == t) = false := by
          simp [beq_iff_eq]
          intro e2
          exact absurd e2.symm hc
        rw [hb]
        simp
    · have e : (refPass1 (g :: gs) (t :: ts) m).2 = (refPass1 gs ts m).2 := by
        simp [refPass1, h]
      rw [e, ih ts m c, hcc]
      have hb : (g == c && g == t) = false := by
        simp [beq_iff_eq]
        intro _ e2
        exact absurd e2 h
      rw [hb]
      simp

/-- Exact matches on a letter never exceed its occurrences in the target. -/
lemma correctMatches_le_count :
    ∀ (gs ts : List Char) (c : Char), correctMatches c gs ts ≤ ts.count c := by
  intro gs
  induction gs with
  | nil => intro ts c; simp [correctMatches]
  | cons g gs ih =>
    intro ts c
    rcases ts with _ | ⟨t, ts⟩
    · simp [correctMatches]
    unfold correctMatches
    rw [List.zip_cons_cons, List.countP_cons, List.count_cons]
    have hle := ih ts c
    unfold correctMatches at hle
    by_cases h : (g == c && g == t) = true
    · have ht : (t == c) = true := by
        simp [beq_iff_eq] at h ⊢
        rw [← h.2, h.1]
      simp [h, ht]
      omega
    · simp [h]
      split_ifs <;> omega

/-- Pass 2 credits a letter at most once per `"correct"` mark plus once per
unit of remaining count. -/
lemma refPass2_credit (c : Char) :
    ∀ (gs : List Char) (vs : List (Option String)) (m : Char → Int),
      (∀ v ∈ vs, v = some "correct" ∨ v = none) →
      creditedCount c gs (refPass2 gs vs m) ≤ correctMarks c gs vs + (m c).toNat := by
  intro gs
  induction gs with
  | nil =>
    intro vs m _
    cases vs <;> simp [creditedCount, refPass2]
  | cons g gs ih =>
    intro vs m hmk
    rcases vs with _ | ⟨v, vs⟩
    · have : refPass2 (g :: gs) [] m = [] := rfl
      simp [creditedCount, this]
    have hmk' : ∀ x ∈ vs, x = some "correct" ∨ x = none := fun x hx => hmk x (by simp [hx])
    rcases hmk v (by simp) with hv | hv <;> subst hv
    · -- pass 1 marked this position correct
      have hout : refPass2 (g :: gs) (some "correct" :: vs) m
          = "correct" :: refPass2 gs vs m := rfl
      unfold creditedCount correctMarks
      rw [hout, List.zip_cons_cons, List.zip_cons_cons, List.countP_cons, List.countP_cons]
      have h1 := ih vs m hmk'
      unfold creditedCount correctMarks at h1
      by_cases hc : (g == c) = true
      · simp [hc]
        omega
      · simp [hc]
        omega
    · -- unmarked position: pass 2 decides
      by_cases h2 : m g > 0
      · have hout : refPass2 (g :: gs) (none :: vs) m
            = "present" :: refPass2 gs vs (Function.update m g (m g - 1)) := by
          simp [refPass2, h2]
        unfold creditedCount correctMarks
        rw [hout, List.zip_cons_cons, List.zip_cons_cons, List.countP_cons, List.countP_cons]
        have h1 := ih vs (Function.update m g (m g - 1)) hmk'
        unfold creditedCount correctMarks at h1
        by_cases hc : g = c
        · subst hc
          rw [Function.update_same] at h1
          simp only [beq_self_eq_true]
          simp
          omega
        · rw [Function.update_noteq (fun e => hc e.symm)] at h1
          have : (g == c) = false := by simp [beq_iff_eq]; exact hc
          simp [this]
          omega
      · have hout : refPass2 (g :: gs) (none :: vs) m
            = "absent" :: refPass2 gs vs m := by
          simp [refPass2, h2]
        unfold creditedCount correctMarks
        rw [hout, List.zip_cons_cons, List.zip_cons_cons, List.countP_cons, List.countP_cons]
        have h1 := ih vs m hmk'
        unfold creditedCount correctMarks at h1
        simp
        omega

/-- Over the pass-1 marks, `"correct"` marks on letter `c` are exactly the
exact matches of `c`. -/
lemma correctMarks_map_mark :
    ∀ (gs ts : List Char) (c : Char),
      correctMarks c gs ((gs.zip ts).map (fun p => if p.1 = p.2 then some "correct" else none))
        = correctMatches c gs ts := by
  intro gs
  induction gs with
  | nil => intro ts c; simp [correctMarks, correctMatches]
  | cons g gs ih =>
    intro ts c
    rcases ts with _ | ⟨t, ts⟩
    · simp [correctMarks, correctMatches]
    unfold correctMarks correctMatches
    rw [List.zip_cons_cons, List.map_cons, List.zip_cons_cons,
      List.countP_cons, List.countP_cons]
    have h1 := ih ts c
    unfold correctMarks correctMatches at h1
    rw [h1]
    by_cases h : g = t
    · simp [h]
    · simp [h]

/-- The scorer never credits a letter more often than it occurs in the
target: correct and present verdicts on `c` are bounded by the count of
`c` in the target word. -/
lemma creditedCount_le_count (g t : String) (hg : g.length = 6) (ht : t.length = 6)
    (c : Char) :
    creditedCount c g.data (scoreGuess g t) ≤ t.data.count c := by
  rw [scoreGuess_eq_refTwoPass g t hg ht]
  unfold refTwoPass
  have hcred := refPass2_credit c g.data (refPass1 g.data t.data (buildCounts t.data)).1
    (refPass1 g.data t.data (buildCounts t.data)).2
    (refPass1_marks g.data t.data (buildCounts t.data))
  have hmarks : correctMarks c g.data (refPass1 g.data t.data (buildCounts t.data)).1
      = correctMatches c g.data t.data := by
    rw [refPass1_fst, correctMarks_map_mark]
  have hsnd : (refPass1 g.data t.data (buildCounts t.data)).2 c
      = (t.data.count c : Int) - correctMatches c g.data t.data := by
    rw [refPass1_snd, buildCounts_apply]
  have hle := correctMatches_le_count g.data t.data c
  rw [hmarks, hsnd] at hcred
  refine le_trans hcred ?_
  omega

/-! ## Leaderboard ordering -/

lemma entryLe_trans (a b c : LBEntry) (h1 : entryLe a b = true) (h2 : entryLe b c = true) :
    entryLe a c = true := by
  unfold entryLe at *
  cases ha : a.won <;> cases hb : b.won <;> cases hc : c.won <;>
    simp_all [decide_eq_true_iff] <;> omega

lemma entryLe_total (a b : LBEntry) : (entryLe a b || entryLe b a) = true := by
  unfold entryLe
  cases ha : a.won <;> cases hb : b.won <;> simp_all [decide_eq_true_iff] <;> omega

lemma sortLeaderboard_sorted (l : List LBEntry) :
    List.Pairwise entryOrder (sortLeaderboard l) := by
  have h := List.sorted_mergeSort entryLe_trans entryLe_total l
  refine h.imp ?_
  intro a b hab
  unfold entryLe at hab
  unfold entryOrder
  cases ha : a.won <;> cases hb : b.won <;> simp_all [decide_eq_true_iff]

lemma sortLeaderboard_perm (l : List LBEntry) : (sortLeaderboard l).Perm l :=
  List.mergeSort_perm l entryLe

/-! ## The claims -/

/-- C1: for every guess and target that are both exactly 6 uppercase
characters, the scoring performed by `POST /guess` produces a 6-element
verdict sequence equal to the reference two-pass algorithm: the per-letter
remaining-count table is built from the target, pass 1 marks exact matches
`"correct"` (decrementing) over all six positions, and only then pass 2
marks the remaining positions `"present"` while the count is positive and
`"absent"` otherwise. -/
theorem guess_scoring_matches_reference (g t : String)
    (hg : g.length = 6) (ht : t.length = 6)
    (hgu : ∀ ch ∈ g.data, ch.isUpper) (htu : ∀ ch ∈ t.data, ch.isUpper) :
    scoreGuess g t = refTwoPass g t ∧ (scoreGuess g t).length = 6 :=
  ⟨scoreGuess_eq_refTwoPass g t hg ht, scoreGuess_length g t⟩

theorem guess_scoring_matches_reference_witness :
    scoreGuess "EERIER" "BETTER" = refTwoPass "EERIER" "BETTER" ∧
      (scoreGuess "EERIER" "BETTER").length = 6 :=
  guess_scoring_matches_reference "EERIER" "BETTER" (by decide) (by decide)
    (by decide) (by decide)

/-- C3: for every 6-character guess and target and every letter `c`, the
number of positions that guess `c` and receive a `"correct"` or
`"present"` verdict never exceeds the occurrences of `c` in the target —
no letter is double-credited across the two passes. -/
theorem no_letter_double_credit (g t : String)
    (hg : g.length = 6) (ht : t.length = 6) (c : Char) :
    creditedCount c g.data (scoreGuess g t) ≤ t.data.count c :=
  creditedCount_le_count g t hg ht c

theorem no_letter_double_credit_witness :
    creditedCount 'E' "EERIER".data (scoreGuess "EERIER" "BETTER")
      ≤ "BETTER".data.count 'E' :=
  no_letter_double_credit "EERIER" "BETTER" (by decide) (by decide) 'E'

/-- C2: for a fixed date ordinal and fixed catalog, `get_daily_word` is
deterministic: any two invocations agree, the process's global random
state is neither read nor changed, and the result is a pure function of
the ordinal and the catalog alone. -/
theorem daily_word_deterministic (d : Nat) (ws : List String) (s₁ s₂ : MTState) :
    (get_daily_word_proc d ws s₁).1 = (get_daily_word_proc d ws s₂).1 ∧
    (get_daily_word_proc d ws s₁).2 = s₁ ∧
    (get_daily_word_proc d ws s₁).1 = get_daily_word d ws :=
  ⟨rfl, rfl, rfl⟩

/-- C4 (counterexample): the length-validation error message of the code is
`"Word must be 6 letters"` (capital W), not `"word must be 6 letters"` as
the claim words it: at the concrete guess `"abc"` the rejection carries the
former and not the latter. -/
theorem guess_length_error_message_cex :
    check_guess "abc" fallbackWords 0 = .httpError 400 "Word must be 6 letters" ∧
    check_guess "abc" fallbackWords 0 ≠ .httpError 400 "word must be 6 letters" := by
  constructor
  · decide
  · decide

/-- C4 (amended): every request whose upper-cased guess is not exactly 6
characters is rejected with HTTP 400 and detail `"Word must be 6
letters"`, for every catalog and every day — so before any membership
check or scoring can influence the outcome. -/
theorem guess_length_rejected (req : String) (ws : List String) (d : Nat)
    (h : (pyUpper req).length ≠ 6) :
    check_guess req ws d = .httpError 400 "Word must be 6 letters" := by
  unfold check_guess
  rw [if_pos h]

theorem guess_length_rejected_witness :
    check_guess "abc" fallbackWords 0 = .httpError 400 "Word must be 6 letters" :=
  guess_length_rejected "abc" fallbackWords 0 (by decide)

/-- C5: every 6-character guess that is not in the catalog gets the handled
response `{result: [], is_valid_word: false}` — an empty verdict list,
never a scored array, with no solution field and no dependence on the
day's target. -/
theorem unknown_word_empty_verdict (req : String) (ws : List String) (d : Nat)
    (h6 : (pyUpper req).length = 6) (hmem : pyUpper req ∉ ws) :
    check_guess req ws d = .response [] false none := by
  unfold check_guess
  rw [if_neg (fun hne => hne h6), if_pos hmem]

theorem unknown_word_empty_verdict_witness :
    check_guess "qqqqqq" fallbackWords 0 = .response [] false none :=
  unknown_word_empty_verdict "qqqqqq" fallbackWords 0 (by decide) (by decide)

/-- C6 (code evaluated at the failing input): the `/guess` response for a
valid catalog word includes the `"solution"` field on every day — there
is no deployment flag in the code and the reveal is unconditional. -/
theorem solution_always_revealed (d : Nat) :
    check_guess "better" fallbackWords d
      = .response (scoreGuess "BETTER" (get_daily_word d fallbackWords)) true
          (some (get_daily_word d fallbackWords)) := by
  unfold check_guess
  have h1 : pyUpper "better" = "BETTER" := by decide
  rw [h1]
  rw [if_neg (by decide), if_neg (by decide)]

unseal List.merge List.mergeSort in
/-- C7: both leaderboard endpoints return the day's rows sorted winners
first, ties by tries ascending (a permutation of the stored rows), and the
spec's three-entry example sorts to the stated order. -/
theorem leaderboard_sorted_winners_first :
    (∀ (key : String) (rows : List LBEntry),
        get_leaderboard key (some (.ok rows)) = ⟨sortLeaderboard rows, key, none⟩ ∧
        List.Pairwise entryOrder (sortLeaderboard rows) ∧
        (sortLeaderboard rows).Perm rows) ∧
    (∀ (key : String) (e : LBEntry) (rows : List LBEntry),
        add_to_leaderboard key e (some (.ok rows))
          = .ok ⟨sortLeaderboard (rows ++ [⟨e.name.trim, e.tries, e.won⟩]), key, none⟩) ∧
    get_leaderboard "2024-01-02"
        (some (.ok [⟨"a", 3, true⟩, ⟨"b", 1, false⟩, ⟨"c", 1, true⟩]))
      = ⟨[⟨"c", 1, true⟩, ⟨"a", 3, true⟩, ⟨"b", 1, false⟩], "2024-01-02", none⟩ := by
  refine ⟨fun key rows => ⟨rfl, sortLeaderboard_sorted rows, sortLeaderboard_perm rows⟩,
    fun key e rows => rfl, ?_⟩
  decide

/-- C8 (counterexample): a write against an unconfigured store is answered
with the soft body `{entries: [], error: "Database not configured"}`, not
with a raised hard error as the claim states. -/
theorem write_unconfigured_soft_cex :
    add_to_leaderboard "2024-01-01" ⟨"anon", 1, true⟩ none
      = .ok ⟨[], "2024-01-01", some "Database not configured"⟩ := rfl

/-- C8 (amended): reads surface both an unconfigured and a raising store as
a soft error field beside an empty list; writes surface a raising store as
a hard HTTP 500 error but an unconfigured store as the same soft body as
reads. -/
theorem store_unavailable_surfacing :
    (∀ key, get_leaderboard key none = ⟨[], key, some "Database not configured"⟩) ∧
    (∀ key e, get_leaderboard key (some (.error e)) = ⟨[], key, some e⟩) ∧
    (∀ key entry, add_to_leaderboard key entry none
        = .ok ⟨[], key, some "Database not configured"⟩) ∧
    (∀ key entry e, add_to_leaderboard key entry (some (.error e)) = .error (500, e)) :=
  ⟨fun _ => rfl, fun _ _ => rfl, fun _ _ => rfl, fun _ _ _ => rfl⟩

/-- C9: on an empty catalog, daily selection returns the sentinel
`"NOWORD"` instead of raising — selection is total. -/
theorem empty_catalog_sentinel (d : Nat) : get_daily_word d [] = "NOWORD" := rfl

/-- C10 (counterexample): the catalog loader neither deduplicates nor
enforces the 6-character length: the source list `["apple", "apple"]`
yields a catalog with a duplicated 5-character word. -/
theorem catalog_dedup_cex :
    buildCatalog ["apple", "apple"] = ["APPLE", "APPLE"] ∧
    ¬ (buildCatalog ["apple", "apple"]).Nodup ∧
    ∃ w ∈ buildCatalog ["apple", "apple"], w.length ≠ 6 := by
  refine ⟨by decide, by decide, ?_⟩
  exact ⟨"APPLE", by decide, by decide⟩

/-- C10 (amended): the catalog is the upper-cased source list verbatim (no
deduplication, no length filter), so uniqueness and the 6-letter invariant
hold exactly when the upper-cased source provides them; the built-in
fallback list does satisfy both. -/
theorem catalog_upper_verbatim :
    (∀ source, loadWords (some source) = source.map pyUpper) ∧
    loadWords none = fallbackWords ∧
    fallbackWords.Nodup ∧
    fallbackWords.all (fun w => w.length == 6) = true :=
  ⟨fun _ => rfl, rfl, by decide, by decide⟩
